import Mathlib

/-!
Verification of the CesiumVectorTile geometric core: a shallow embedding of
`CoplanarPolygonOutlineGeometry`, `PlaneOutlineGeometry` and
`OrthographicFrustum`, together with the polygon-hierarchy pack/unpack
protocol, and proofs of the specified properties.

JavaScript numbers are modelled as rationals (`ℚ`): every operation verified
here (copies, negation, halving, exact division) is exact, so no float
rounding is involved.  A possibly-`undefined` number is `Option ℚ`.
JavaScript arrays written by the pack functions are modelled as lists, with
`writeWords` overwriting a contiguous region starting at a given index.
-/

/-- A 3D position (`Cartesian3` in the source). -/
structure Cartesian3 where
  x : ℚ
  y : ℚ
  z : ℚ
deriving DecidableEq, Repr

/-- A polygon hierarchy: an outer ring of positions plus nested hole
hierarchies (`PolygonHierarchy` in the source). -/
inductive PolygonHierarchy where
  | mk (positions : List Cartesian3) (holes : List PolygonHierarchy)
deriving Repr

/-- The ring positions of a hierarchy node. -/
def PolygonHierarchy.positions : PolygonHierarchy → List Cartesian3
  | .mk ps _ => ps

/-- The hole hierarchies of a node. -/
def PolygonHierarchy.holes : PolygonHierarchy → List PolygonHierarchy
  | .mk _ hs => hs

deriving instance DecidableEq for Except

/-- Overwrite the region of `arr` starting at index `i` with the words `ws`
(the effect of the sequential array writes `arr[i++] = w` in the source,
assuming `i ≤ arr.length` so no holes arise). -/
def writeWords {α : Type} (arr : List α) (i : ℕ) (ws : List α) : List α :=
  arr.take i ++ ws ++ arr.drop (i + ws.length)

mutual

/-- Modelled from the spec: `PolygonGeometryLibrary.computeHierarchyPackedLength`
(the library module is not among the provided sources).  Recursively sums, for
each node, `1 (ring length marker) + 3*ringPositionCount + 1 (hole count
marker) + sum over the holes`. -/
def PolygonGeometryLibrary.computeHierarchyPackedLength : PolygonHierarchy → ℕ
  | .mk ps holes => 1 + 3 * ps.length + 1 + PolygonGeometryLibrary.packedLengthOfHoles holes

/-- Sum of the packed lengths of a list of holes. -/
def PolygonGeometryLibrary.packedLengthOfHoles : List PolygonHierarchy → ℕ
  | [] => 0
  | h :: t =>
    PolygonGeometryLibrary.computeHierarchyPackedLength h +
      PolygonGeometryLibrary.packedLengthOfHoles t

end

mutual

/-- Modelled from the spec: the word sequence written by
`PolygonGeometryLibrary.packPolygonHierarchy` (the library module is not among
the provided sources): a depth-first pre-order write of ring length, each
position's 3 components, hole count, then each hole packed recursively. -/
def packHierarchyWords : PolygonHierarchy → List ℚ
  | .mk ps holes =>
    (ps.length : ℚ) :: (ps.flatMap fun p => [p.x, p.y, p.z]) ++
      ((holes.length : ℚ) :: packHolesWords holes)

/-- The words written for a list of holes, in order. -/
def packHolesWords : List PolygonHierarchy → List ℚ
  | [] => []
  | h :: t => packHierarchyWords h ++ packHolesWords t

end

/-- Modelled from the spec: `PolygonGeometryLibrary.packPolygonHierarchy`
writes the hierarchy's words into the array starting at `startingIndex` and
returns the updated array together with the next free index. -/
def PolygonGeometryLibrary.packPolygonHierarchy (h : PolygonHierarchy)
    (arr : List ℚ) (startingIndex : ℕ) : List ℚ × ℕ :=
  (writeWords arr startingIndex (packHierarchyWords h),
    startingIndex + (packHierarchyWords h).length)

/-- Read a nonnegative-integer count back from a packed word (the packed
markers are written as numbers; a malformed word yields `none`). -/
def ratToNat (q : ℚ) : Option ℕ :=
  if q.den = 1 ∧ 0 ≤ q.num then some q.num.toNat else none

/-- Read `n` positions (3 components each) from the front of a word list,
returning them with the remaining words. -/
def readPositions : ℕ → List ℚ → Option (List Cartesian3 × List ℚ)
  | 0, arr => some ([], arr)
  | n + 1, x :: y :: z :: rest =>
    match readPositions n rest with
    | some (ps, r) => some (⟨x, y, z⟩ :: ps, r)
    | none => none
  | _ + 1, _ => none

mutual

/-- Modelled from the spec: the reading core of
`PolygonGeometryLibrary.unpackPolygonHierarchy` (inverse of pack), with a fuel
argument bounding the nesting depth to make the recursion structural. -/
def unpackHierarchyWords : ℕ → List ℚ → Option (PolygonHierarchy × List ℚ)
  | 0, _ => none
  | _ + 1, [] => none
  | fuel + 1, q :: rest =>
    match ratToNat q with
    | none => none
    | some n =>
      match readPositions n rest with
      | none => none
      | some (ps, rest1) =>
        match rest1 with
        | [] => none
        | qh :: rest2 =>
          match ratToNat qh with
          | none => none
          | some m =>
            match unpackHolesWords fuel m rest2 with
            | none => none
            | some (hs, rest3) => some (.mk ps hs, rest3)
termination_by fuel arr => (fuel, 0)

/-- Read `m` hole hierarchies in sequence. -/
def unpackHolesWords : ℕ → ℕ → List ℚ → Option (List PolygonHierarchy × List ℚ)
  | _, 0, arr => some ([], arr)
  | fuel, m + 1, arr =>
    match unpackHierarchyWords fuel arr with
    | none => none
    | some (h, rest) =>
      match unpackHolesWords fuel m rest with
      | none => none
      | some (hs, r) => some (h :: hs, r)
termination_by fuel m arr => (fuel, m + 1)

end

/-- Modelled from the spec: `PolygonGeometryLibrary.unpackPolygonHierarchy`
reads a hierarchy from the array starting at `startingIndex` and returns it
with the next index (the source records it on the returned object as
`startingIndex`). -/
def PolygonGeometryLibrary.unpackPolygonHierarchy (arr : List ℚ)
    (startingIndex : ℕ) : Option (PolygonHierarchy × ℕ) :=
  match unpackHierarchyWords (arr.length + 1) (arr.drop startingIndex) with
  | none => none
  | some (h, rest) =>
    some (h, startingIndex + ((arr.drop startingIndex).length - rest.length))

/-- A description of the outline of a polygon composed of arbitrary coplanar
positions (`CoplanarPolygonOutlineGeometry` in the source; only the fields
relevant to packing are modelled, the worker name being a constant string). -/
structure CoplanarPolygonOutlineGeometry where
  _polygonHierarchy : PolygonHierarchy
  packedLength : ℚ

/-- The `CoplanarPolygonOutlineGeometry` constructor applied to
`{ polygonHierarchy : h }`: stores the hierarchy and sets `packedLength` to
`computeHierarchyPackedLength(polygonHierarchy) + 1`. -/
def CoplanarPolygonOutlineGeometry.ofHierarchy (h : PolygonHierarchy) :
    CoplanarPolygonOutlineGeometry :=
  ⟨h, ((PolygonGeometryLibrary.computeHierarchyPackedLength h + 1 : ℕ) : ℚ)⟩

/-- Function `CoplanarPolygonOutlineGeometry.pack`: packs the hierarchy starting at
`startingIndex`, then writes `value.packedLength` at the returned next free
index; returns the array. -/
def CoplanarPolygonOutlineGeometry.pack (value : CoplanarPolygonOutlineGeometry)
    (arr : List ℚ) (startingIndex : ℕ) : List ℚ :=
  let r := PolygonGeometryLibrary.packPolygonHierarchy value._polygonHierarchy arr startingIndex
  writeWords r.1 r.2 [value.packedLength]

/-- Function `CoplanarPolygonOutlineGeometry.unpack`: reads the hierarchy from
`startingIndex`, then reads the trailing scalar at the next index as the
reconstructed object's `packedLength`. -/
def CoplanarPolygonOutlineGeometry.unpack (arr : List ℚ) (startingIndex : ℕ) :
    Option CoplanarPolygonOutlineGeometry :=
  match PolygonGeometryLibrary.unpackPolygonHierarchy arr startingIndex with
  | none => none
  | some (ph, idx) =>
    match arr[idx]? with
    | none => none
    | some pl => some ⟨ph, pl⟩

mutual

/-- Nesting depth of a hierarchy (used only to bound the unpacking fuel). -/
def hierarchyDepth : PolygonHierarchy → ℕ
  | .mk _ holes => 1 + holesDepth holes

/-- Maximum depth over a list of holes. -/
def holesDepth : List PolygonHierarchy → ℕ
  | [] => 0
  | h :: t => max (hierarchyDepth h) (holesDepth t)

end

/-- Primitive topology tags (`PrimitiveType` in the source; only the members
used by the modelled modules are needed). -/
inductive PrimitiveType where
  | POINTS
  | LINES
  | TRIANGLES
deriving DecidableEq, Repr

/-- A renderable geometry (`Geometry` in the source): the flat `position`
attribute values, the index buffer and the primitive topology.  The optional
bounding sphere is not modelled (its radius involves a square root, and no
verified property concerns it). -/
structure Geometry where
  positionValues : List ℚ
  indices : List ℕ
  primitiveType : PrimitiveType
deriving DecidableEq, Repr

/-- Function `createGeometryFromPositions` (module-private helper of
`CoplanarPolygonOutlineGeometry`): flattens the ring positions into a
`3*N`-component buffer and emits the closed-loop line indices
`i, (i+1) % N` for each `i`, with LINES topology. -/
def createGeometryFromPositions (positions : List Cartesian3) : Geometry :=
  { positionValues := positions.flatMap fun p => [p.x, p.y, p.z]
    indices := (List.range positions.length).flatMap fun i =>
      [i, (i + 1) % positions.length]
    primitiveType := .LINES }

/-- Corner used by `PlaneOutlineGeometry.createGeometry` (`min` in the source). -/
def PlaneOutlineGeometry.minCorner : Cartesian3 := ⟨-(1/2), -(1/2), 0⟩

/-- Corner used by `PlaneOutlineGeometry.createGeometry` (`max` in the source). -/
def PlaneOutlineGeometry.maxCorner : Cartesian3 := ⟨1/2, 1/2, 0⟩

/-- Function `PlaneOutlineGeometry.createGeometry`: the outline of the unit plane,
4 corner vertices and the loop indices `[0,1,1,2,2,3,3,0]` (the bounding
sphere of radius `√2` is not modelled). -/
def PlaneOutlineGeometry.createGeometry : Geometry :=
  { positionValues :=
      [PlaneOutlineGeometry.minCorner.x, PlaneOutlineGeometry.minCorner.y,
       PlaneOutlineGeometry.minCorner.z,
       PlaneOutlineGeometry.maxCorner.x, PlaneOutlineGeometry.minCorner.y,
       PlaneOutlineGeometry.minCorner.z,
       PlaneOutlineGeometry.maxCorner.x, PlaneOutlineGeometry.maxCorner.y,
       PlaneOutlineGeometry.minCorner.z,
       PlaneOutlineGeometry.minCorner.x, PlaneOutlineGeometry.maxCorner.y,
       PlaneOutlineGeometry.minCorner.z]
    indices := [0, 1, 1, 2, 2, 3, 3, 0]
    primitiveType := .LINES }

/-- The external library functions called by
`CoplanarPolygonOutlineGeometry.createGeometry` whose modules are not among
the provided sources (`arrayRemoveDuplicates` with `Cartesian3.equalsEpsilon`
and wrap-around, `CoplanarPolygonGeometryLibrary.validOutline`,
`PolygonGeometryLibrary.polygonOutlinesFromHierarchy`,
`GeometryPipeline.combineInstances`).  They are abstracted as parameters:
every verified property of `createGeometry` holds for all of them. -/
structure GeometryExternals where
  arrayRemoveDuplicates : List Cartesian3 → List Cartesian3
  validOutline : List Cartesian3 → Bool
  polygonOutlinesFromHierarchy : PolygonHierarchy → List (List Cartesian3)
  combineInstances : List Geometry → List Geometry

/-- Function `CoplanarPolygonOutlineGeometry.createGeometry`: removes duplicate outer
positions, returns no geometry when fewer than 3 remain or the outline is
invalid or the hierarchy yields no rings, and otherwise tessellates every
ring and combines the per-ring geometries, as in the source. -/
def CoplanarPolygonOutlineGeometry.createGeometry (ext : GeometryExternals)
    (polygonGeometry : CoplanarPolygonOutlineGeometry) : Option Geometry :=
  let polygonHierarchy := polygonGeometry._polygonHierarchy
  let outerPositions := ext.arrayRemoveDuplicates polygonHierarchy.positions
  if outerPositions.length < 3 then none
  else if ¬ ext.validOutline outerPositions then none
  else
    let polygons := ext.polygonOutlinesFromHierarchy polygonHierarchy
    if polygons.length = 0 then none
    else
      match (ext.combineInstances (polygons.map createGeometryFromPositions)).head? with
      | none => none
      | some geometry =>
        some { positionValues := geometry.positionValues
               indices := geometry.indices
               primitiveType := geometry.primitiveType }

/-- The off-center orthographic frustum helper
(`OrthographicOffCenterFrustum` in the source module of that name, not among
the provided sources; fields and constructor defaults as documented:
`left/right/top/bottom` start unset, `near` defaults to 1 and `far` to
500000000). -/
structure OrthographicOffCenterFrustum where
  left : Option ℚ
  right : Option ℚ
  top : Option ℚ
  bottom : Option ℚ
  near : Option ℚ
  far : Option ℚ
deriving DecidableEq, Repr

/-- The constructor call `new OrthographicOffCenterFrustum()`. -/
def OrthographicOffCenterFrustum.init : OrthographicOffCenterFrustum :=
  ⟨none, none, none, none, some 1, some 500000000⟩

/-- Modelled from the spec: `OrthographicOffCenterFrustum.getPixelDimensions`
(module not among the provided sources): pixel size is independent of the
`distance` argument and equals `(right-left)/bufferWidth` and
`(top-bottom)/bufferHeight`; the buffer dimensions must be positive (the
documented exceptions on the wrapper). -/
def OrthographicOffCenterFrustum.getPixelDimensions
    (f : OrthographicOffCenterFrustum)
    (drawingBufferWidth drawingBufferHeight distance : ℚ) :
    Except String (ℚ × ℚ) :=
  if drawingBufferWidth ≤ 0 then
    .error "drawingBufferWidth must be greater than zero."
  else if drawingBufferHeight ≤ 0 then
    .error "drawingBufferHeight must be greater than zero."
  else
    .ok ((f.right.getD 0 - f.left.getD 0) / drawingBufferWidth,
         (f.top.getD 0 - f.bottom.getD 0) / drawingBufferHeight)

/-- Modelled from the spec: `OrthographicOffCenterFrustum.equals` (module not
among the provided sources): structural comparison of the derived bounds. -/
def OrthographicOffCenterFrustum.equalsOffCenter
    (a b : OrthographicOffCenterFrustum) : Bool :=
  decide (a.left = b.left) && decide (a.right = b.right) &&
    decide (a.top = b.top) && decide (a.bottom = b.bottom) &&
    decide (a.near = b.near) && decide (a.far = b.far)

/-- Structure `OrthographicFrustum` in the source: the public parameters, the cached
last-used values (underscore fields) and the off-center helper. -/
structure OrthographicFrustum where
  offCenterFrustum : OrthographicOffCenterFrustum
  width : Option ℚ
  _width : Option ℚ
  aspectRatio : Option ℚ
  _aspectRatio : Option ℚ
  near : Option ℚ
  _near : Option ℚ
  far : Option ℚ
  _far : Option ℚ
deriving DecidableEq, Repr

/-- The constructor call `new OrthographicFrustum(options)`: `width` and `aspectRatio` from the
options (possibly unset), `near` defaulting to 1 and `far` to 500000000,
with `_near`/`_far` initialised to the chosen values and `_width`,
`_aspectRatio` unset. -/
def OrthographicFrustum.create (width aspectRatio near far : Option ℚ) :
    OrthographicFrustum :=
  { offCenterFrustum := OrthographicOffCenterFrustum.init
    width := width
    _width := none
    aspectRatio := aspectRatio
    _aspectRatio := none
    near := some (near.getD 1)
    _near := some (near.getD 1)
    far := some (far.getD 500000000)
    _far := some (far.getD 500000000) }

/-- The constructor call `new OrthographicFrustum()`. -/
def OrthographicFrustum.init : OrthographicFrustum :=
  OrthographicFrustum.create none none none none

/-- Constant `OrthographicFrustum.packedLength`. -/
def OrthographicFrustum.packedLength : ℕ := 4

/-- Function `OrthographicFrustum.pack`: writes `[width, aspectRatio, near, far]`
starting at `startingIndex` and returns the array. -/
def OrthographicFrustum.pack (value : OrthographicFrustum)
    (arr : List (Option ℚ)) (startingIndex : ℕ) : List (Option ℚ) :=
  writeWords arr startingIndex [value.width, value.aspectRatio, value.near, value.far]

/-- Function `OrthographicFrustum.unpack` with no `result` argument: reads the four
parameters back from the array into a fresh frustum (reading past the end of
the array yields an unset value, as in JavaScript). -/
def OrthographicFrustum.unpack (arr : List (Option ℚ)) (startingIndex : ℕ) :
    OrthographicFrustum :=
  { OrthographicFrustum.init with
    width := (arr[startingIndex]?).join
    aspectRatio := (arr[startingIndex + 1]?).join
    near := (arr[startingIndex + 2]?).join
    far := (arr[startingIndex + 3]?).join }

/-- The state `update` produces when some parameter changed and validation
passed: caches synchronised with the parameters and the off-center bounds
derived (`right = width*0.5`, `left = -right`, `top = (1/aspectRatio)*right`,
`bottom = -top`, near/far copied). -/
def OrthographicFrustum.updatedState (frustum : OrthographicFrustum) :
    OrthographicFrustum :=
  let w := frustum.width.getD 0
  let a := frustum.aspectRatio.getD 0
  let n := frustum.near.getD 0
  let fa := frustum.far.getD 0
  { frustum with
    _aspectRatio := frustum.aspectRatio
    _width := frustum.width
    _near := frustum.near
    _far := frustum.far
    offCenterFrustum :=
      { right := some (w * (1 / 2))
        left := some (-(w * (1 / 2)))
        top := some (1 / a * (w * (1 / 2)))
        bottom := some (-(1 / a * (w * (1 / 2))))
        near := some n
        far := some fa } }

/-- The module-private `update(frustum)` of `OrthographicFrustum`, in the
debug build (the `//>>includeStart('debug')` checks included): throws when a
parameter is unset; when some parameter differs from its cached value, throws
when `aspectRatio < 0` or `near < 0` or `near > far` (note: the source checks
strict inequalities even though its messages say "positive" and "less than
far"), and otherwise stores the parameters into the caches and derives the
off-center bounds.  State passing is explicit: the updated frustum is
returned. -/
def OrthographicFrustum.update (frustum : OrthographicFrustum) :
    Except String OrthographicFrustum :=
  if frustum.width = none ∨ frustum.aspectRatio = none ∨
      frustum.near = none ∨ frustum.far = none then
    .error "width, aspectRatio, near, or far parameters are not set."
  else if frustum.width ≠ frustum._width ∨ frustum.aspectRatio ≠ frustum._aspectRatio ∨
      frustum.near ≠ frustum._near ∨ frustum.far ≠ frustum._far then
    if frustum.aspectRatio.getD 0 < 0 then .error "aspectRatio must be positive."
    else if frustum.near.getD 0 < 0 ∨ frustum.near.getD 0 > frustum.far.getD 0 then
      .error "near must be greater than zero and less than far."
    else
      .ok frustum.updatedState
  else .ok frustum

/-- Function `OrthographicFrustum.prototype.getPixelDimensions`: updates the frustum
and delegates to the off-center helper. -/
def OrthographicFrustum.getPixelDimensions (f : OrthographicFrustum)
    (drawingBufferWidth drawingBufferHeight distance : ℚ) :
    Except String (ℚ × ℚ) :=
  match f.update with
  | .error e => .error e
  | .ok f' =>
    f'.offCenterFrustum.getPixelDimensions drawingBufferWidth
      drawingBufferHeight distance

/-- The possible JavaScript arguments of `equals`: anything that is not an
`OrthographicFrustum` instance, or one. -/
inductive FrustumArg where
  | nonFrustum
  | frustum (g : OrthographicFrustum)

/-- Function `OrthographicFrustum.prototype.equals`: `false` for an undefined or
non-`OrthographicFrustum` argument; otherwise updates both operands (an
update failure propagates as a thrown error) and compares `width`,
`aspectRatio` and the off-center helpers. -/
def OrthographicFrustum.equals (f : OrthographicFrustum)
    (other : Option FrustumArg) : Except String Bool :=
  match other with
  | none => .ok false
  | some .nonFrustum => .ok false
  | some (.frustum g) =>
    match f.update with
    | .error e => .error e
    | .ok f' =>
      match g.update with
      | .error e => .error e
      | .ok g' =>
        .ok (decide (f'.width = g'.width) &&
          decide (f'.aspectRatio = g'.aspectRatio) &&
          OrthographicOffCenterFrustum.equalsOffCenter f'.offCenterFrustum
            g'.offCenterFrustum)

/-- A sample frustum with valid, freshly set parameters
(`width = 2, aspectRatio = 1, near = 1, far = 10`). -/
def sampleFrustum : OrthographicFrustum :=
  OrthographicFrustum.create (some 2) (some 1) (some 1) (some 10)

/-- The state of `sampleFrustum` after a successful `update`. -/
def sampleFrustumUpdated : OrthographicFrustum :=
  { sampleFrustum with
    _width := some 2
    _aspectRatio := some 1
    _near := some 1
    _far := some 10
    offCenterFrustum :=
      ⟨some (-1), some 1, some 1, some (-1), some 1, some 10⟩ }

/-! ### Helper lemmas on the array model -/

theorem length_take_eq {α : Type} (arr : List α) (i : ℕ) (hi : i ≤ arr.length) :
    (arr.take i).length = i := by
  simp [List.length_take, Nat.min_eq_left hi]

theorem writeWords_drop {α : Type} (arr : List α) (i : ℕ) (ws : List α)
    (hi : i ≤ arr.length) :
    (writeWords arr i ws).drop i = ws ++ arr.drop (i + ws.length) := by
  unfold writeWords
  rw [List.append_assoc, List.drop_left' (length_take_eq arr i hi)]

theorem writeWords_getElem {α : Type} (arr : List α) (i : ℕ) (ws : List α)
    (k : ℕ) (hi : i ≤ arr.length) (hk : k < ws.length) :
    (writeWords arr i ws)[i + k]? = ws[k]? := by
  unfold writeWords
  rw [List.append_assoc,
    List.getElem?_append_right (by rw [length_take_eq arr i hi]; omega),
    length_take_eq arr i hi, Nat.add_sub_cancel_left,
    List.getElem?_append_left hk]

theorem writeWords_length {α : Type} (arr : List α) (i : ℕ) (ws : List α)
    (hi : i ≤ arr.length) :
    (writeWords arr i ws).length = max arr.length (i + ws.length) := by
  unfold writeWords
  simp [length_take_eq arr i hi, List.length_drop]
  omega

theorem writeWords_snoc {α : Type} (arr : List α) (i : ℕ) (ws : List α) (v : α)
    (hi : i ≤ arr.length) :
    writeWords (writeWords arr i ws) (i + ws.length) [v] =
      writeWords arr i (ws ++ [v]) := by
  unfold writeWords
  have h1 : ((arr.take i ++ ws).length) = i + ws.length := by
    simp [length_take_eq arr i hi]
  rw [List.append_assoc, ← List.append_assoc (arr.take i) ws]
  rw [List.take_left' h1]
  have h2 : (arr.take i ++ ws) ++ arr.drop (i + ws.length) =
      (arr.take i ++ ws) ++ arr.drop (i + ws.length) := rfl
  rw [show i + ws.length + [v].length = (arr.take i ++ ws).length + 1 by
    simp [h1]]
  rw [List.drop_append]
  simp [List.append_assoc, List.drop_drop]
  rw [show i + ws.length + 1 = i + (ws.length + 1) by omega]

/-- The flattened position buffer of a ring has `3*N` components. -/
theorem length_flatPositions (ps : List Cartesian3) :
    (ps.flatMap fun p => [p.x, p.y, p.z]).length = 3 * ps.length := by
  induction ps with
  | nil => rfl
  | cons p t ih => simp [List.flatMap_cons, ih]; omega

/-- Each emitted index pair has 2 entries, whatever the modulus. -/
theorem length_pairFlatMap (l : List ℕ) (n : ℕ) :
    (l.flatMap fun i => [i, (i + 1) % n]).length = 2 * l.length := by
  induction l with
  | nil => rfl
  | cons a t ih => simp [List.flatMap_cons, ih]; omega

/-- The loop index buffer of a ring has `2*N` entries. -/
theorem length_loopIndices (n : ℕ) :
    ((List.range n).flatMap fun i => [i, (i + 1) % n]).length = 2 * n := by
  rw [length_pairFlatMap, List.length_range]

/-- C3: outline tessellation of a ring of `N ≥ 3` positions produces the
ring's coordinates in order in a `3*N`-component position buffer and the
closed-loop index pairs `(i, (i+1) mod N)` in a `2*N`-entry index buffer with
LINES topology; a 3-position ring yields indices `[0,1,1,2,2,0]` and the
plane outline yields `[0,1,1,2,2,3,3,0]`. -/
theorem outline_tessellation_closed_loop :
    (∀ positions : List Cartesian3, 3 ≤ positions.length →
      (createGeometryFromPositions positions).positionValues =
          positions.flatMap (fun p => [p.x, p.y, p.z]) ∧
      (createGeometryFromPositions positions).positionValues.length =
          3 * positions.length ∧
      (createGeometryFromPositions positions).indices =
          (List.range positions.length).flatMap
            (fun i => [i, (i + 1) % positions.length]) ∧
      (createGeometryFromPositions positions).indices.length =
          2 * positions.length ∧
      (createGeometryFromPositions positions).primitiveType = .LINES) ∧
    (∀ positions : List Cartesian3, positions.length = 3 →
      (createGeometryFromPositions positions).indices = [0, 1, 1, 2, 2, 0]) ∧
    PlaneOutlineGeometry.createGeometry.indices = [0, 1, 1, 2, 2, 3, 3, 0] := by
  refine ⟨fun positions _ => ⟨rfl, ?_, rfl, ?_, rfl⟩, fun positions h3 => ?_, rfl⟩
  · exact length_flatPositions positions
  · exact length_loopIndices positions.length
  · simp only [createGeometryFromPositions, h3]
    decide

/-- Witness for C3 at the concrete ring `(0,0,0), (1,0,0), (0,1,0)`. -/
theorem outline_tessellation_closed_loop_witness :
    (createGeometryFromPositions [⟨0, 0, 0⟩, ⟨1, 0, 0⟩, ⟨0, 1, 0⟩]).primitiveType
        = .LINES ∧
    (createGeometryFromPositions [⟨0, 0, 0⟩, ⟨1, 0, 0⟩, ⟨0, 1, 0⟩]).indices
        = [0, 1, 1, 2, 2, 0] :=
  ⟨(outline_tessellation_closed_loop.1 [⟨0, 0, 0⟩, ⟨1, 0, 0⟩, ⟨0, 1, 0⟩]
      (by decide)).2.2.2.2,
   outline_tessellation_closed_loop.2.1 [⟨0, 0, 0⟩, ⟨1, 0, 0⟩, ⟨0, 1, 0⟩]
      (by decide)⟩

/-- C4: `CoplanarPolygonOutlineGeometry.createGeometry` silently returns no
geometry whenever the deduplicated outer ring has fewer than 3 positions or
fails the validity check, for any behaviour of the external library
functions. -/
theorem coplanar_createGeometry_invalid_returns_none (ext : GeometryExternals)
    (pg : CoplanarPolygonOutlineGeometry)
    (hbad : (ext.arrayRemoveDuplicates pg._polygonHierarchy.positions).length < 3 ∨
      ext.validOutline (ext.arrayRemoveDuplicates pg._polygonHierarchy.positions)
        = false) :
    CoplanarPolygonOutlineGeometry.createGeometry ext pg = none := by
  unfold CoplanarPolygonOutlineGeometry.createGeometry
  rcases hbad with hlt | hval
  · simp [hlt]
  · by_cases hlt : (ext.arrayRemoveDuplicates pg._polygonHierarchy.positions).length < 3
    · simp [hlt]
    · simp [hlt, hval]

/-- Witness for C4: identity dedup on a 2-position outer ring. -/
theorem coplanar_createGeometry_invalid_returns_none_witness :
    CoplanarPolygonOutlineGeometry.createGeometry
      ⟨id, fun _ => true, fun _ => [], id⟩
      (CoplanarPolygonOutlineGeometry.ofHierarchy
        (.mk [⟨0, 0, 0⟩, ⟨1, 0, 0⟩] [])) = none :=
  coplanar_createGeometry_invalid_returns_none
    ⟨id, fun _ => true, fun _ => [], id⟩
    (CoplanarPolygonOutlineGeometry.ofHierarchy (.mk [⟨0, 0, 0⟩, ⟨1, 0, 0⟩] []))
    (Or.inl (by decide))

/-- C9: packing an `OrthographicFrustum` writes the 4-word layout
`[width, aspectRatio, near, far]` and unpacking it from the same index
restores all four parameters, for arbitrary parameter values (valid or not);
`packedLength` is 4. -/
theorem orthographicFrustum_pack_unpack_roundtrip (f : OrthographicFrustum)
    (arr : List (Option ℚ)) (i : ℕ) (hi : i ≤ arr.length) :
    (OrthographicFrustum.unpack (OrthographicFrustum.pack f arr i) i).width
        = f.width ∧
    (OrthographicFrustum.unpack (OrthographicFrustum.pack f arr i) i).aspectRatio
        = f.aspectRatio ∧
    (OrthographicFrustum.unpack (OrthographicFrustum.pack f arr i) i).near
        = f.near ∧
    (OrthographicFrustum.unpack (OrthographicFrustum.pack f arr i) i).far
        = f.far ∧
    OrthographicFrustum.packedLength = 4 := by
  unfold OrthographicFrustum.unpack OrthographicFrustum.pack
  have h0 := writeWords_getElem arr i
    [f.width, f.aspectRatio, f.near, f.far] 0 hi (by simp)
  have h1 := writeWords_getElem arr i
    [f.width, f.aspectRatio, f.near, f.far] 1 hi (by simp)
  have h2 := writeWords_getElem arr i
    [f.width, f.aspectRatio, f.near, f.far] 2 hi (by simp)
  have h3 := writeWords_getElem arr i
    [f.width, f.aspectRatio, f.near, f.far] 3 hi (by simp)
  rw [Nat.add_zero] at h0
  refine ⟨?_, ?_, ?_, ?_, rfl⟩ <;>
    simp [h0, h1, h2, h3]

/-- Witness for C9 at a frustum whose parameters would make `update` throw
(`aspectRatio = -1`, `near = 5 > far = 2`), packed at index 1 of a 2-element
array. -/
theorem orthographicFrustum_pack_unpack_roundtrip_witness :
    (OrthographicFrustum.unpack
      (OrthographicFrustum.pack
        (OrthographicFrustum.create (some 3) (some (-1)) (some 5) (some 2))
        [none, none] 1) 1).width = some 3 ∧
    OrthographicFrustum.packedLength = 4 :=
  ⟨(orthographicFrustum_pack_unpack_roundtrip
      (OrthographicFrustum.create (some 3) (some (-1)) (some 5) (some 2))
      [none, none] 1 (by decide)).1,
   (orthographicFrustum_pack_unpack_roundtrip
      (OrthographicFrustum.create (some 3) (some (-1)) (some 5) (some 2))
      [none, none] 1 (by decide)).2.2.2.2⟩

/-! ### Analysis of `OrthographicFrustum.update` -/

/-- When all parameters are set and none differs from its cache, `update`
returns the frustum unchanged. -/
theorem update_ok_of_unchanged (f : OrthographicFrustum)
    (hdef : f.width ≠ none ∧ f.aspectRatio ≠ none ∧ f.near ≠ none ∧ f.far ≠ none)
    (hsame : f.width = f._width ∧ f.aspectRatio = f._aspectRatio ∧
      f.near = f._near ∧ f.far = f._far) :
    f.update = .ok f := by
  unfold OrthographicFrustum.update
  rw [if_neg (by tauto)]
  rw [if_neg (by tauto)]

/-- When all parameters are set, some parameter changed, and the (source's)
validity checks pass, `update` returns the derived state. -/
theorem update_ok_of_changed (f : OrthographicFrustum)
    (hdef : f.width ≠ none ∧ f.aspectRatio ≠ none ∧ f.near ≠ none ∧ f.far ≠ none)
    (hch : f.width ≠ f._width ∨ f.aspectRatio ≠ f._aspectRatio ∨
      f.near ≠ f._near ∨ f.far ≠ f._far)
    (ha0 : ¬ f.aspectRatio.getD 0 < 0)
    (hnf : ¬ (f.near.getD 0 < 0 ∨ f.near.getD 0 > f.far.getD 0)) :
    f.update = .ok f.updatedState := by
  unfold OrthographicFrustum.update OrthographicFrustum.updatedState
  rw [if_neg (by tauto)]
  rw [if_pos hch, if_neg ha0, if_neg hnf]

/-- Inversion: a successful `update` means all parameters were set and the
result is either the unchanged frustum (when no parameter differed from its
cache) or the derived state (when some did). -/
theorem update_ok_elim (f f' : OrthographicFrustum) (hok : f.update = .ok f') :
    (f.width ≠ none ∧ f.aspectRatio ≠ none ∧ f.near ≠ none ∧ f.far ≠ none) ∧
    ((¬ (f.width ≠ f._width ∨ f.aspectRatio ≠ f._aspectRatio ∨
        f.near ≠ f._near ∨ f.far ≠ f._far) ∧ f' = f) ∨
      ((f.width ≠ f._width ∨ f.aspectRatio ≠ f._aspectRatio ∨
        f.near ≠ f._near ∨ f.far ≠ f._far) ∧ f' = f.updatedState)) := by
  unfold OrthographicFrustum.update at hok
  split_ifs at hok with hdef hch hbad1 hbad2
  · cases hok
    exact ⟨by tauto, Or.inr ⟨hch, rfl⟩⟩
  · cases hok
    exact ⟨by tauto, Or.inl ⟨hch, rfl⟩⟩

/-- Evaluation of `update` on the sample frustum (its parameters are set,
valid, and differ from the fresh caches). -/
theorem sampleFrustum_update :
    sampleFrustum.update = .ok sampleFrustumUpdated := by
  have h := update_ok_of_changed sampleFrustum (by decide) (Or.inl (by decide))
    (by decide) (by decide)
  rw [h]
  congr 1
  simp only [OrthographicFrustum.updatedState, sampleFrustum,
    sampleFrustumUpdated, OrthographicFrustum.create, Option.getD_some,
    OrthographicFrustum.mk.injEq, OrthographicOffCenterFrustum.mk.injEq]
  norm_num

/-- C1: contrary to the claim (and to the source's own error messages),
`update` accepts `aspectRatio = 0` and `near = far` at the boundary: the
checks are strict (`aspectRatio < 0`, `near > far`), so both frustums below
update successfully instead of throwing. -/
theorem orthographicFrustum_update_accepts_boundary_parameters :
    ((OrthographicFrustum.create (some 1) (some 0) (some 1) (some 2)).update).isOk
      = true ∧
    ((OrthographicFrustum.create (some 1) (some 1) (some 2) (some 2)).update).isOk
      = true := by
  decide

/-- C6: a successful `update` on a frustum whose set parameters differ from
the caches derives `right = width/2`, `left = -right`, `top = right/aspectRatio`,
`bottom = -top` on the off-center helper and copies near and far through. -/
theorem orthographicFrustum_update_derives_offcenter_bounds
    (f f' : OrthographicFrustum) (w a n fa : ℚ)
    (hw : f.width = some w) (ha : f.aspectRatio = some a)
    (hn : f.near = some n) (hfa : f.far = some fa)
    (hch : f.width ≠ f._width ∨ f.aspectRatio ≠ f._aspectRatio ∨
      f.near ≠ f._near ∨ f.far ≠ f._far)
    (hok : f.update = .ok f') :
    f'.offCenterFrustum.right = some (w / 2) ∧
    f'.offCenterFrustum.left = some (-(w / 2)) ∧
    f'.offCenterFrustum.top = some (w / 2 / a) ∧
    f'.offCenterFrustum.bottom = some (-(w / 2 / a)) ∧
    f'.offCenterFrustum.near = some n ∧
    f'.offCenterFrustum.far = some fa := by
  obtain ⟨hdef, hcase⟩ := update_ok_elim f f' hok
  rcases hcase with ⟨hnc, _⟩ | ⟨_, rfl⟩
  · exact absurd hch hnc
  · have e1 : w * (1 / 2) = w / 2 := by ring
    have e2 : 1 / a * (w * (1 / 2)) = w / 2 / a := by ring
    have e3 : 1 / a * (w / 2) = w / 2 / a := by ring
    refine ⟨?_, ?_, ?_, ?_, ?_, ?_⟩ <;>
      simp only [OrthographicFrustum.updatedState, hw, ha, hn, hfa,
        Option.getD_some, e1, e2, e3]

/-- Witness for C6 at `width = 2, aspectRatio = 1, near = 1, far = 10`. -/
theorem orthographicFrustum_update_derives_offcenter_bounds_witness :
    sampleFrustumUpdated.offCenterFrustum.right = some (2 / 2) ∧
    sampleFrustumUpdated.offCenterFrustum.left = some (-(2 / 2)) ∧
    sampleFrustumUpdated.offCenterFrustum.top = some (2 / 2 / 1) ∧
    sampleFrustumUpdated.offCenterFrustum.bottom = some (-(2 / 2 / 1)) ∧
    sampleFrustumUpdated.offCenterFrustum.near = some 1 ∧
    sampleFrustumUpdated.offCenterFrustum.far = some 10 :=
  orthographicFrustum_update_derives_offcenter_bounds
    sampleFrustum sampleFrustumUpdated 2 1 1 10 rfl rfl rfl rfl
    (Or.inl (by decide)) sampleFrustum_update

/-- C7: `update` is lazy and idempotent: with all parameters set and equal to
their caches it returns the frustum unchanged (no derived state is written),
and a second `update` after any successful one is the identity. -/
theorem orthographicFrustum_update_lazy_and_idempotent :
    (∀ f : OrthographicFrustum,
      (f.width ≠ none ∧ f.aspectRatio ≠ none ∧ f.near ≠ none ∧ f.far ≠ none) →
      (f.width = f._width ∧ f.aspectRatio = f._aspectRatio ∧
        f.near = f._near ∧ f.far = f._far) →
      f.update = .ok f) ∧
    (∀ f f' : OrthographicFrustum, f.update = .ok f' → f'.update = .ok f') := by
  refine ⟨fun f hdef hsame => update_ok_of_unchanged f hdef hsame,
    fun f f' hok => ?_⟩
  obtain ⟨hdef, hcase⟩ := update_ok_elim f f' hok
  rcases hcase with ⟨_, rfl⟩ | ⟨_, rfl⟩
  · exact hok
  · refine update_ok_of_unchanged _ ?_ ?_
    · simpa [OrthographicFrustum.updatedState] using hdef
    · simp [OrthographicFrustum.updatedState]

/-- Witness for C7: a redundant `update` on an already-updated frustum is the
identity. -/
theorem orthographicFrustum_update_lazy_and_idempotent_witness :
    sampleFrustumUpdated.update = .ok sampleFrustumUpdated :=
  orthographicFrustum_update_lazy_and_idempotent.2 sampleFrustum
    sampleFrustumUpdated sampleFrustum_update

/-- C8: for a frustum whose `update` succeeds, `getPixelDimensions` is
independent of the distance argument and returns
`((right-left)/bufferWidth, (top-bottom)/bufferHeight)`. -/
theorem orthographicFrustum_getPixelDimensions_distance_independent
    (f f' : OrthographicFrustum) (bw bh d1 d2 : ℚ)
    (hok : f.update = .ok f') (hbw : 0 < bw) (hbh : 0 < bh) :
    f.getPixelDimensions bw bh d1 = f.getPixelDimensions bw bh d2 ∧
    f.getPixelDimensions bw bh d1 =
      .ok ((f'.offCenterFrustum.right.getD 0 - f'.offCenterFrustum.left.getD 0) / bw,
        (f'.offCenterFrustum.top.getD 0 - f'.offCenterFrustum.bottom.getD 0) / bh) := by
  unfold OrthographicFrustum.getPixelDimensions
  rw [hok]
  unfold OrthographicOffCenterFrustum.getPixelDimensions
  dsimp only
  rw [if_neg (not_le.mpr hbw), if_neg (not_le.mpr hbh)]
  exact ⟨rfl, rfl⟩

/-- Witness for C8 at distances 0 and 1000 on a 100×50 buffer. -/
theorem orthographicFrustum_getPixelDimensions_distance_independent_witness :
    sampleFrustum.getPixelDimensions 100 50 0 =
      sampleFrustum.getPixelDimensions 100 50 1000 :=
  (orthographicFrustum_getPixelDimensions_distance_independent
    sampleFrustum sampleFrustumUpdated 100 50 0 1000
    sampleFrustum_update (by decide) (by decide)).1

/-- C10: for a frustum with set, valid parameters, `equals` returns `false`
(without raising) on an undefined or non-`OrthographicFrustum` argument, but
throws the unset-parameters `DeveloperError` when the argument is an
`OrthographicFrustum` whose `width` or `aspectRatio` is unset. -/
theorem orthographicFrustum_equals_argument_handling
    (f f' : OrthographicFrustum) (hok : f.update = .ok f') :
    f.equals none = .ok false ∧
    f.equals (some .nonFrustum) = .ok false ∧
    (∀ g : OrthographicFrustum, g.width = none ∨ g.aspectRatio = none →
      f.equals (some (.frustum g)) =
        .error "width, aspectRatio, near, or far parameters are not set.") := by
  refine ⟨rfl, rfl, fun g hg => ?_⟩
  have hgerr : g.update =
      .error "width, aspectRatio, near, or far parameters are not set." := by
    unfold OrthographicFrustum.update
    rw [if_pos (by tauto)]
  simp only [OrthographicFrustum.equals]
  rw [hok, hgerr]

/-- Witness for C10: a valid frustum compared with one whose `width` is
unset. -/
theorem orthographicFrustum_equals_argument_handling_witness :
    sampleFrustum.equals
      (some (.frustum (OrthographicFrustum.create none (some 1) none none))) =
      .error "width, aspectRatio, near, or far parameters are not set." :=
  (orthographicFrustum_equals_argument_handling sampleFrustum
    sampleFrustumUpdated sampleFrustum_update).2.2
    (OrthographicFrustum.create none (some 1) none none) (Or.inl rfl)

/-! ### The polygon-hierarchy pack/unpack round trip -/

/-- Reading a count written as a natural-number cast succeeds. -/
theorem ratToNat_natCast (n : ℕ) : ratToNat (n : ℚ) = some n := by
  simp [ratToNat]

/-- Reading back the flattened components of `ps` recovers `ps` and leaves
the remaining words untouched. -/
theorem readPositions_flat (ps : List Cartesian3) (rest : List ℚ) :
    readPositions ps.length ((ps.flatMap fun p => [p.x, p.y, p.z]) ++ rest)
      = some (ps, rest) := by
  induction ps with
  | nil => rfl
  | cons p t ih =>
    simp only [List.flatMap_cons, List.length_cons, List.cons_append,
      List.append_assoc]
    simp only [readPositions, List.nil_append]
    rw [ih]

mutual

/-- The packed word count of a hierarchy equals
`computeHierarchyPackedLength`. -/
theorem length_packHierarchyWords (h : PolygonHierarchy) :
    (packHierarchyWords h).length
      = PolygonGeometryLibrary.computeHierarchyPackedLength h :=
  match h with
  | .mk ps holes => by
    simp only [packHierarchyWords,
      PolygonGeometryLibrary.computeHierarchyPackedLength, List.length_cons,
      List.length_append, length_flatPositions, length_packHolesWords holes]
    omega

/-- The packed word count of a hole list equals the summed packed lengths. -/
theorem length_packHolesWords (hs : List PolygonHierarchy) :
    (packHolesWords hs).length = PolygonGeometryLibrary.packedLengthOfHoles hs :=
  match hs with
  | [] => rfl
  | h :: t => by
    simp only [packHolesWords, PolygonGeometryLibrary.packedLengthOfHoles,
      List.length_append, length_packHierarchyWords h, length_packHolesWords t]

end

mutual

/-- The nesting depth of a hierarchy is bounded by its packed word count. -/
theorem hierarchyDepth_le_length (h : PolygonHierarchy) :
    hierarchyDepth h ≤ (packHierarchyWords h).length :=
  match h with
  | .mk ps holes => by
    have hh := holesDepth_le_length holes
    simp only [hierarchyDepth, packHierarchyWords, List.length_cons,
      List.length_append]
    omega

/-- The maximal depth of a hole list is bounded by its packed word count. -/
theorem holesDepth_le_length (hs : List PolygonHierarchy) :
    holesDepth hs ≤ (packHolesWords hs).length :=
  match hs with
  | [] => le_rfl
  | h :: t => by
    have h1 := hierarchyDepth_le_length h
    have h2 := holesDepth_le_length t
    simp only [holesDepth, packHolesWords, List.length_append]
    omega

end

/-- A member's depth is bounded by the list's maximal depth. -/
theorem hierarchyDepth_le_holesDepth (h' : PolygonHierarchy)
    (hs : List PolygonHierarchy) (hm : h' ∈ hs) :
    hierarchyDepth h' ≤ holesDepth hs := by
  induction hs with
  | nil => cases hm
  | cons h t ih =>
    rcases List.mem_cons.mp hm with rfl | hm'
    · simp only [holesDepth]
      exact Nat.le_max_left _ _
    · simp only [holesDepth]
      exact le_trans (ih hm') (Nat.le_max_right _ _)

/-- The round trip on raw words: unpacking the packed words of a hierarchy
(with any fuel at least its depth) recovers the hierarchy and the trailing
words. -/
theorem unpack_pack_hierarchy_words :
    ∀ (fuel : ℕ) (h : PolygonHierarchy) (tail : List ℚ),
      hierarchyDepth h ≤ fuel →
      unpackHierarchyWords fuel (packHierarchyWords h ++ tail)
        = some (h, tail) := by
  intro fuel
  induction fuel with
  | zero =>
    intro h tail hd
    cases h with
    | mk ps holes => simp [hierarchyDepth] at hd
  | succ fuel ih =>
    have aux : ∀ (hs : List PolygonHierarchy) (tail : List ℚ),
        (∀ h' ∈ hs, hierarchyDepth h' ≤ fuel) →
        unpackHolesWords fuel hs.length (packHolesWords hs ++ tail)
          = some (hs, tail) := by
      intro hs
      induction hs with
      | nil =>
        intro tail _
        simp [packHolesWords, unpackHolesWords]
      | cons h t iht =>
        intro tail hmem
        have h1 := ih h (packHolesWords t ++ tail) (hmem h (by simp))
        have h2 := iht tail (fun h' hm => hmem h' (by simp [hm]))
        simp only [packHolesWords, List.length_cons, List.append_assoc]
        simp only [unpackHolesWords]
        rw [h1]
        dsimp only
        rw [h2]
    intro h tail hd
    cases h with
    | mk ps holes =>
      have hdep : ∀ h' ∈ holes, hierarchyDepth h' ≤ fuel := by
        intro h' hm
        have h1 := hierarchyDepth_le_holesDepth h' holes hm
        have h2 : hierarchyDepth (.mk ps holes) = 1 + holesDepth holes := rfl
        omega
      have haux := aux holes tail hdep
      simp only [packHierarchyWords, List.cons_append, List.append_assoc]
      simp only [unpackHierarchyWords]
      rw [ratToNat_natCast]
      dsimp only
      rw [readPositions_flat]
      dsimp only
      rw [ratToNat_natCast]
      dsimp only
      rw [haux]

/-- Function `CoplanarPolygonOutlineGeometry.pack` writes the hierarchy's words
followed by the trailing `packedLength` scalar, contiguously from
`startingIndex`. -/
theorem coplanar_pack_eq (h : PolygonHierarchy) (arr : List ℚ) (i : ℕ)
    (hi : i ≤ arr.length) :
    CoplanarPolygonOutlineGeometry.pack
        (CoplanarPolygonOutlineGeometry.ofHierarchy h) arr i
      = writeWords arr i (packHierarchyWords h ++
          [((PolygonGeometryLibrary.computeHierarchyPackedLength h + 1 : ℕ) : ℚ)]) := by
  unfold CoplanarPolygonOutlineGeometry.pack
    PolygonGeometryLibrary.packPolygonHierarchy
  dsimp only
  exact writeWords_snoc arr i (packHierarchyWords h) _ hi

/-- Unpacking a packed `CoplanarPolygonOutlineGeometry` from the same index
recovers the object (hierarchy and trailing packed length). -/
theorem coplanar_unpack_of_pack (h : PolygonHierarchy) (arr : List ℚ) (i : ℕ)
    (hi : i ≤ arr.length) :
    CoplanarPolygonOutlineGeometry.unpack
        (CoplanarPolygonOutlineGeometry.pack
          (CoplanarPolygonOutlineGeometry.ofHierarchy h) arr i) i
      = some (CoplanarPolygonOutlineGeometry.ofHierarchy h) := by
  rw [coplanar_pack_eq h arr i hi]
  set pl : ℚ :=
    ((PolygonGeometryLibrary.computeHierarchyPackedLength h + 1 : ℕ) : ℚ) with hpl
  set A := writeWords arr i (packHierarchyWords h ++ [pl]) with hA
  have hwslen : (packHierarchyWords h ++ [pl]).length
      = (packHierarchyWords h).length + 1 := by simp
  have hdrop : A.drop i = packHierarchyWords h ++
      ([pl] ++ arr.drop (i + ((packHierarchyWords h).length + 1))) := by
    rw [hA, writeWords_drop arr i _ hi, hwslen, List.append_assoc]
  have hlenA : A.length = max arr.length (i + ((packHierarchyWords h).length + 1)) := by
    rw [hA, writeWords_length arr i _ hi, hwslen]
  have hfuel : hierarchyDepth h ≤ A.length + 1 := by
    have h1 := hierarchyDepth_le_length h
    omega
  have hU : PolygonGeometryLibrary.unpackPolygonHierarchy A i
      = some (h, i + (packHierarchyWords h).length) := by
    unfold PolygonGeometryLibrary.unpackPolygonHierarchy
    rw [hdrop, unpack_pack_hierarchy_words (A.length + 1) h _ hfuel]
    dsimp only
    congr 2
    simp [List.length_append]
  have hread : A[i + (packHierarchyWords h).length]? = some pl := by
    have hk := writeWords_getElem arr i (packHierarchyWords h ++ [pl])
      (packHierarchyWords h).length hi (by simp)
    rw [← hA] at hk
    rw [hk, List.getElem?_append_right le_rfl]
    simp
  simp only [CoplanarPolygonOutlineGeometry.unpack, hU, hread]
  rfl

/-- C2: unpacking the array produced by packing a
`CoplanarPolygonOutlineGeometry` reconstructs exactly the original polygon
hierarchy (same ring positions, order, hole nesting, and coordinate
values). -/
theorem coplanar_pack_unpack_hierarchy_roundtrip (h : PolygonHierarchy)
    (arr : List ℚ) (i : ℕ) (hi : i ≤ arr.length) :
    (CoplanarPolygonOutlineGeometry.unpack
        (CoplanarPolygonOutlineGeometry.pack
          (CoplanarPolygonOutlineGeometry.ofHierarchy h) arr i) i).map
      CoplanarPolygonOutlineGeometry._polygonHierarchy = some h := by
  rw [coplanar_unpack_of_pack h arr i hi]
  rfl

/-- Witness for C2: a triangle with one triangular hole, packed into an empty
array at index 0. -/
theorem coplanar_pack_unpack_hierarchy_roundtrip_witness :
    (CoplanarPolygonOutlineGeometry.unpack
        (CoplanarPolygonOutlineGeometry.pack
          (CoplanarPolygonOutlineGeometry.ofHierarchy
            (.mk [⟨1, 2, 3⟩, ⟨4, 5, 6⟩, ⟨7, 8, 9⟩]
              [.mk [⟨0, 0, 0⟩, ⟨1, 1, 1⟩, ⟨2, 2, 2⟩] []])) [] 0) 0).map
      CoplanarPolygonOutlineGeometry._polygonHierarchy =
      some (.mk [⟨1, 2, 3⟩, ⟨4, 5, 6⟩, ⟨7, 8, 9⟩]
        [.mk [⟨0, 0, 0⟩, ⟨1, 1, 1⟩, ⟨2, 2, 2⟩] []]) :=
  coplanar_pack_unpack_hierarchy_roundtrip
    (.mk [⟨1, 2, 3⟩, ⟨4, 5, 6⟩, ⟨7, 8, 9⟩]
      [.mk [⟨0, 0, 0⟩, ⟨1, 1, 1⟩, ⟨2, 2, 2⟩] []]) [] 0 (by decide)

/-- C5: `pack` writes the recursively packed hierarchy at `startingIndex`
followed by one trailing scalar, equal to the object's `packedLength`
(the hierarchy's packed length plus one), at the next free index; `unpack`
reads that scalar back as the reconstructed object's `packedLength`. -/
theorem coplanar_pack_trailing_packedLength (h : PolygonHierarchy)
    (arr : List ℚ) (i : ℕ) (hi : i ≤ arr.length) :
    (CoplanarPolygonOutlineGeometry.ofHierarchy h).packedLength
      = ((PolygonGeometryLibrary.computeHierarchyPackedLength h + 1 : ℕ) : ℚ) ∧
    CoplanarPolygonOutlineGeometry.pack
        (CoplanarPolygonOutlineGeometry.ofHierarchy h) arr i
      = writeWords arr i (packHierarchyWords h ++
          [(CoplanarPolygonOutlineGeometry.ofHierarchy h).packedLength]) ∧
    (CoplanarPolygonOutlineGeometry.pack
        (CoplanarPolygonOutlineGeometry.ofHierarchy h) arr
        i)[i + PolygonGeometryLibrary.computeHierarchyPackedLength h]?
      = some (CoplanarPolygonOutlineGeometry.ofHierarchy h).packedLength ∧
    (CoplanarPolygonOutlineGeometry.unpack
        (CoplanarPolygonOutlineGeometry.pack
          (CoplanarPolygonOutlineGeometry.ofHierarchy h) arr i) i).map
      CoplanarPolygonOutlineGeometry.packedLength
      = some (CoplanarPolygonOutlineGeometry.ofHierarchy h).packedLength := by
  refine ⟨rfl, coplanar_pack_eq h arr i hi, ?_, ?_⟩
  · rw [coplanar_pack_eq h arr i hi]
    have hlen := length_packHierarchyWords h
    have hk := writeWords_getElem arr i
      (packHierarchyWords h ++
        [((PolygonGeometryLibrary.computeHierarchyPackedLength h + 1 : ℕ) : ℚ)])
      (packHierarchyWords h).length hi (by simp)
    rw [show i + PolygonGeometryLibrary.computeHierarchyPackedLength h
        = i + (packHierarchyWords h).length by rw [hlen]]
    rw [hk, List.getElem?_append_right le_rfl]
    simp [CoplanarPolygonOutlineGeometry.ofHierarchy]
  · rw [coplanar_unpack_of_pack h arr i hi]
    rfl

/-- Witness for C5: a single-ring hierarchy packed at index 1 of a 1-element
array. -/
theorem coplanar_pack_trailing_packedLength_witness :
    (CoplanarPolygonOutlineGeometry.unpack
        (CoplanarPolygonOutlineGeometry.pack
          (CoplanarPolygonOutlineGeometry.ofHierarchy
            (.mk [⟨5, 6, 7⟩] [])) [3] 1) 1).map
      CoplanarPolygonOutlineGeometry.packedLength
      = some (CoplanarPolygonOutlineGeometry.ofHierarchy
          (.mk [⟨5, 6, 7⟩] [])).packedLength :=
  (coplanar_pack_trailing_packedLength (.mk [⟨5, 6, 7⟩] []) [3] 1
    (by decide)).2.2.2
